import Mathlib

/-!
Verification development for the hifld-search repository.

The data model and the operations below are shallow embeddings of the
TypeScript source: the selection-set handlers and the session search handler
come from `src/app/page.tsx`, the rendered-layer registry update from
`src/components/MapView.tsx`, and the export projection from
`src/components/ExportMapButton.tsx`. The search and ranking engine lives in
`src/lib/search.ts`, which is not part of the available sources; it is
modelled from the specification and marked as such.
-/

/-- A catalog / selection record, the `Layer` shape used throughout the app:
`name`, `agency`, `serviceUrl` (optional endpoint), `status`, `duaRequired`,
`giiRequired`. -/
structure Layer where
  name : String
  agency : String
  serviceUrl : Option String
  status : String
  duaRequired : Bool
  giiRequired : Bool
deriving Repr, DecidableEq

/-- JavaScript truthiness of `layer.serviceUrl` as used in the filters
`layer.serviceUrl` and `!layer.serviceUrl`: absent or empty means falsy. -/
def hasServiceUrl (l : Layer) : Bool :=
  match l.serviceUrl with
  | none => false
  | some s => !s.isEmpty

/-- From `src/app/page.tsx` (`handleAddLayer`): append the layer unless an
entry with the same `name` is already selected. -/
def handleAddLayer (selectedLayers : List Layer) (layer : Layer) : List Layer :=
  if (selectedLayers.find? (fun l => l.name == layer.name)).isSome then
    selectedLayers
  else
    selectedLayers ++ [layer]

/-- From `src/app/page.tsx` (`handleRemoveLayer`): keep the layers whose name
differs from the given one. -/
def handleRemoveLayer (selectedLayers : List Layer) (layerName : String) : List Layer :=
  selectedLayers.filter (fun l => l.name != layerName)

/-- From `src/app/page.tsx` (`handleClearMap`): the selection becomes empty. -/
def handleClearMap : List Layer := []

/-- The session state held in `page.tsx` by React hooks: the latest query,
the latest search results, and the selected layers. -/
structure SessionState where
  searchQuery : String
  searchResults : List Layer
  selectedLayers : List Layer
deriving Repr, DecidableEq

/-- From `src/app/page.tsx` (`handleSearch`): the query is stored, then the
outcome of `searchLayers` either replaces the results or, when the call
threw, resets the results to the empty list. The selected layers are not
touched. -/
def handleSearch (st : SessionState) (query : String)
    (outcome : Except String (List Layer)) : SessionState :=
  match outcome with
  | Except.ok results => { st with searchQuery := query, searchResults := results }
  | Except.error _ => { st with searchQuery := query, searchResults := [] }

/-- One step of the add loop of `updateLayers` in
`src/components/MapView.tsx`: skip the layer when it has no `serviceUrl` or
the registry already holds its name, otherwise register it. -/
def addStep (reg : List String) (layer : Layer) : List String :=
  if !hasServiceUrl layer || reg.contains layer.name then reg
  else reg ++ [layer.name]

/-- From `src/components/MapView.tsx` (`updateLayers`): the rendered-layer
registry (the key set of the `layerRefs` map, insertion ordered) first drops
every name that is no longer selected, then runs the add loop over the
selected layers. -/
def updateLayers (registry : List String) (layers : List Layer) : List String :=
  List.foldl addStep
    (registry.filter (fun n => (layers.map (fun l => l.name)).contains n)) layers

/-- From `src/app/page.tsx` (`handleHurricanePreset`): the selection is
cleared, then for each search term the results with a service URL are kept,
at most two of them, and each is appended unless the duplicate check fires.
The duplicate check reads the `selectedLayers` binding captured by the
closure, which still holds the selection as it stood when the preset was
invoked, while the appends go through functional state updates; the fold
below reproduces exactly that: the membership test uses the stale list, the
accumulator receives the appends. -/
def handleHurricanePreset (selectedLayers : List Layer)
    (termResults : List (List Layer)) : List Layer :=
  termResults.foldl
    (fun acc results =>
      ((results.filter hasServiceUrl).take 2).foldl
        (fun acc2 layer =>
          if (selectedLayers.find? (fun l => l.name == layer.name)).isSome then acc2
          else acc2 ++ [layer])
        acc)
    []

/-- The per-layer object written by `handleExport` in
`src/components/ExportMapButton.tsx`: exactly the six fields `name`,
`agency`, `serviceUrl`, `status`, `duaRequired`, `giiRequired`. -/
structure ExportedLayer where
  name : String
  agency : String
  serviceUrl : Option String
  status : String
  duaRequired : Bool
  giiRequired : Bool
deriving Repr, DecidableEq

/-- From `src/components/ExportMapButton.tsx` (`handleExport`): the object
literal built for one selected layer. -/
def exportLayer (layer : Layer) : ExportedLayer :=
  { name := layer.name
    agency := layer.agency
    serviceUrl := layer.serviceUrl
    status := layer.status
    duaRequired := layer.duaRequired
    giiRequired := layer.giiRequired }

/-- From `src/components/ExportMapButton.tsx` (`handleExport`): the `layers`
field of the exported configuration, one object per selected layer, in
selection order. -/
def exportLayers (layers : List Layer) : List ExportedLayer :=
  layers.map exportLayer

/-- Modelled from the spec: `src/lib/search.ts` is missing from the sources,
so the normalizer of section 4.2 is built here. Lowercasing of one ASCII
character. -/
def charLower (c : Char) : Char :=
  if 'A' ≤ c ∧ c ≤ 'Z' then Char.ofNat (c.toNat + 32) else c

/-- Modelled from the spec: the whitespace split of section 4.2, producing
the nonempty runs of non-whitespace characters. The first argument is the
reversed run collected so far. -/
def tokenizeAux : List Char → List Char → List (List Char)
  | acc, [] => if acc.isEmpty then [] else [acc.reverse]
  | acc, c :: cs =>
    if c.isWhitespace then
      (if acc.isEmpty then tokenizeAux [] cs else acc.reverse :: tokenizeAux [] cs)
    else tokenizeAux (c :: acc) cs

/-- Modelled from the spec: `normalize` of section 4.2 for the missing
`src/lib/search.ts`. Lowercase the input, split on whitespace, keep the
nonempty tokens; empty and whitespace-only input give the empty token set. -/
def normalizeQuery (query : String) : List (List Char) :=
  tokenizeAux [] (query.data.map charLower)

/-- Substring containment over character lists: the first list occurs
contiguously inside the second. -/
def containsSub (t : List Char) : List Char → Bool
  | [] => t.isEmpty
  | c :: rest => t.isPrefixOf (c :: rest) || containsSub t rest

/-- Modelled from the spec: the field score of section 4.3 for the missing
`src/lib/search.ts`, counted in half units so that it stays in the natural
numbers: the spec contribution `weight x 1.0` when the lowercased field
contains every token becomes `weight * 2`, the contribution `weight x 0.5`
when it contains at least one token becomes `weight * 1`, and no match is 0.
Doubling every score preserves the ranking order and the positivity of
scores exactly. -/
def fieldScore (weight : Nat) (tokens : List (List Char)) (field : String) : Nat :=
  let fl := field.data.map charLower
  if tokens.all (fun t => containsSub t fl) then weight * 2
  else if tokens.any (fun t => containsSub t fl) then weight * 1
  else 0

/-- A ranked record: the catalog record, its score (in half units, see
`fieldScore`), and which fields contributed a positive score. -/
structure MatchResult where
  record : Layer
  score : Nat
  matchedName : Bool
  matchedAgency : Bool
deriving Repr, DecidableEq

/-- Modelled from the spec: the record score of section 4.3, `name` with
weight 2 and `agency` with weight 1, summed. -/
def scoreRecord (tokens : List (List Char)) (r : Layer) : MatchResult :=
  let nameScore := fieldScore 2 tokens r.name
  let agencyScore := fieldScore 1 tokens r.agency
  { record := r
    score := nameScore + agencyScore
    matchedName := decide (0 < nameScore)
    matchedAgency := decide (0 < agencyScore) }

/-- Lexicographic order on character lists, used for the deterministic
tie-break on names. -/
def lexLe : List Char → List Char → Bool
  | [], _ => true
  | _ :: _, [] => false
  | a :: as, b :: bs => if a = b then lexLe as bs else decide (a < b)

/-- The ranking order of section 4.3: strictly larger score first, ties
resolved by ascending lexicographic name. -/
def rankOrder (a b : MatchResult) : Prop :=
  b.score < a.score ∨
    (a.score = b.score ∧ lexLe a.record.name.data b.record.name.data = true)

instance : DecidableRel rankOrder := fun a b => by
  unfold rankOrder
  infer_instance

/-- Modelled from the spec: `rank` of section 4.3 for the missing
`src/lib/search.ts`. An empty token set gives no results; otherwise every
record is scored, the zero scores are dropped, and the rest is sorted by
`rankOrder`. -/
def rank (tokens : List (List Char)) (catalog : List Layer) : List MatchResult :=
  if tokens.isEmpty then []
  else
    List.insertionSort rankOrder
      ((catalog.map (scoreRecord tokens)).filter (fun m => decide (0 < m.score)))

/-- Modelled from the spec: `search` of section 4.5 for the missing
`src/lib/search.ts`, the composition of `normalize` and `rank`. -/
def searchLayers (query : String) (catalog : List Layer) : List MatchResult :=
  rank (normalizeQuery query) catalog

/-- A selectable record with a service endpoint, used as concrete input. -/
def hospitalA : Layer :=
  { name := "Hospital A", agency := "HHS", serviceUrl := some "http://x",
    status := "Active", duaRequired := false, giiRequired := true }

/-- A second record with a service endpoint and a distinct name. -/
def fireStation1 : Layer :=
  { name := "Fire Station 1", agency := "DHS", serviceUrl := some "http://y",
    status := "Active", duaRequired := false, giiRequired := false }

/-- A third record with a service endpoint and a distinct name. -/
def shelterLayer : Layer :=
  { name := "Shelters", agency := "FEMA", serviceUrl := some "http://z",
    status := "Migrated", duaRequired := true, giiRequired := false }

/-- A record without a service endpoint. -/
def noUrlLayer : Layer :=
  { name := "Reference Only Layer", agency := "HHS", serviceUrl := none,
    status := "Active", duaRequired := false, giiRequired := false }

/-- A record with an endpoint whose name matches two different emergency
search terms, such as hospital and airport. -/
def presetLayer : Layer :=
  { name := "Airport Hospital Heliports", agency := "FAA", serviceUrl := some "http://svc",
    status := "Active", duaRequired := false, giiRequired := false }

theorem lexLe_total (s t : List Char) : lexLe s t = true ∨ lexLe t s = true := by
  induction s generalizing t with
  | nil => exact Or.inl rfl
  | cons a as ih =>
    cases t with
    | nil => exact Or.inr rfl
    | cons b bs =>
      by_cases hab : a = b
      · subst hab
        rcases ih bs with h | h
        · exact Or.inl (by simp [lexLe, h])
        · exact Or.inr (by simp [lexLe, h])
      · rcases lt_or_gt_of_ne hab with h | h
        · exact Or.inl (by simp [lexLe, hab, h])
        · exact Or.inr (by simp [lexLe, Ne.symm hab, h])

theorem lexLe_trans {s t u : List Char} (h1 : lexLe s t = true)
    (h2 : lexLe t u = true) : lexLe s u = true := by
  induction s generalizing t u with
  | nil => rfl
  | cons a as ih =>
    cases t with
    | nil => simp [lexLe] at h1
    | cons b bs =>
      cases u with
      | nil => simp [lexLe] at h2
      | cons c cs =>
        by_cases hab : a = b <;> by_cases hbc : b = c
        · subst hab; subst hbc
          simp only [lexLe, if_pos rfl] at h1 h2 ⊢
          exact ih h1 h2
        · subst hab
          simp only [lexLe, if_pos rfl] at h1
          simp only [lexLe, if_neg hbc, decide_eq_true_eq] at h2
          simp [lexLe, hbc, h2]
        · subst hbc
          simp only [lexLe, if_neg hab, decide_eq_true_eq] at h1
          simp [lexLe, hab, h1]
        · simp only [lexLe, if_neg hab, decide_eq_true_eq] at h1
          simp only [lexLe, if_neg hbc, decide_eq_true_eq] at h2
          have hac : a < c := lt_trans h1 h2
          simp [lexLe, ne_of_lt hac, hac]

instance : IsTotal MatchResult rankOrder :=
  ⟨fun a b => by
    rcases lt_trichotomy a.score b.score with h | h | h
    · exact Or.inr (Or.inl h)
    · rcases lexLe_total a.record.name.data b.record.name.data with hl | hl
      · exact Or.inl (Or.inr ⟨h, hl⟩)
      · exact Or.inr (Or.inr ⟨h.symm, hl⟩)
    · exact Or.inl (Or.inl h)⟩

instance : IsTrans MatchResult rankOrder :=
  ⟨fun a b c hab hbc => by
    rcases hab with h1 | ⟨e1, n1⟩ <;> rcases hbc with h2 | ⟨e2, n2⟩
    · exact Or.inl (lt_trans h2 h1)
    · exact Or.inl (lt_of_eq_of_lt e2.symm h1)
    · exact Or.inl (lt_of_lt_of_eq h2 e1.symm)
    · exact Or.inr ⟨e1.trans e2, lexLe_trans n1 n2⟩⟩

theorem addStep_foldl_nodup (ls : List Layer) (reg : List String)
    (h : reg.Nodup) : (List.foldl addStep reg ls).Nodup := by
  induction ls generalizing reg with
  | nil => exact h
  | cons l₀ rest ih =>
    simp only [List.foldl_cons]
    apply ih
    unfold addStep
    split
    · exact h
    · rename_i hcond
      rw [Bool.not_eq_true, Bool.or_eq_false_iff] at hcond
      have hn : l₀.name ∉ reg := by simpa using hcond.2
      simp [List.nodup_append, h, hn]

theorem addStep_foldl_mem (ls : List Layer) (reg : List String) (n : String)
    (h : n ∈ List.foldl addStep reg ls) :
    n ∈ reg ∨ ∃ l, l ∈ ls ∧ l.name = n ∧ hasServiceUrl l = true := by
  induction ls generalizing reg with
  | nil => exact Or.inl h
  | cons l₀ rest ih =>
    simp only [List.foldl_cons] at h
    rcases ih _ h with hmem | ⟨l, hl, hn, hu⟩
    · revert hmem
      unfold addStep
      split
      · exact fun hm => Or.inl hm
      · rename_i hcond
        rw [Bool.not_eq_true, Bool.or_eq_false_iff] at hcond
        intro hm
        rcases List.mem_append.mp hm with hm | hm
        · exact Or.inl hm
        · have heq : n = l₀.name := by simpa using hm
          have hu : hasServiceUrl l₀ = true := by
            have := hcond.1
            simpa using this
          exact Or.inr ⟨l₀, List.mem_cons_self _ _, heq.symm, hu⟩
    · exact Or.inr ⟨l, List.mem_cons_of_mem _ hl, hn, hu⟩

/-- C1: adding a record with a non-null service endpoint twice yields the
same selection as adding it once — the same list, hence the same single
entry at the same position — and when no entry with its name was present the
result holds exactly one entry with that name. -/
theorem handleAddLayer_idempotent (s : List Layer) (r : Layer)
    (h : hasServiceUrl r = true) :
    handleAddLayer (handleAddLayer s r) r = handleAddLayer s r ∧
    (s.countP (fun l => l.name == r.name) = 0 →
      (handleAddLayer s r).countP (fun l => l.name == r.name) = 1) := by
  constructor
  · unfold handleAddLayer
    cases hf : (s.find? (fun l => l.name == r.name)).isSome with
    | true => simp [hf]
    | false =>
      have hs : s.find? (fun l => l.name == r.name) = none := by
        cases hq : s.find? (fun l => l.name == r.name) with
        | none => rfl
        | some x => rw [hq] at hf; simp at hf
      have hfull : ((s ++ [r]).find? (fun l => l.name == r.name)).isSome = true := by
        rw [List.find?_append, hs]
        simp [List.find?]
      simp [hf, hfull]
  · intro h0
    have hs : s.find? (fun l => l.name == r.name) = none := by
      rw [List.find?_eq_none]
      intro x hx
      have := List.countP_eq_zero.mp h0 x hx
      simpa using this
    unfold handleAddLayer
    rw [hs]
    simp [List.countP_append, h0, List.countP_cons]

/-- C1 witness: the theorem applied to the empty selection and a concrete
record with an endpoint. -/
theorem handleAddLayer_idempotent_witness :
    handleAddLayer (handleAddLayer [] hospitalA) hospitalA = handleAddLayer [] hospitalA ∧
    (handleAddLayer [] hospitalA).countP (fun l => l.name == hospitalA.name) = 1 :=
  ⟨(handleAddLayer_idempotent [] hospitalA (by decide)).1,
   (handleAddLayer_idempotent [] hospitalA (by decide)).2 (by decide)⟩

/-- C2 counterexample: for a concrete record whose `serviceUrl` is absent,
`handleAddLayer` does change the selection set, so the claim that `add(r)`
never changes the selection for endpoint-less records is false on the code. -/
theorem handleAddLayer_noUrl_changes_selection :
    handleAddLayer [] noUrlLayer ≠ [] := by decide

/-- C2 amended: adding a record with no service endpoint changes the
selection set exactly as any add does — it is appended when its name is new —
but the endpoint gate holds one level down: such a record never enters the
rendered-layer registry maintained by the map update. -/
theorem handleAddLayer_noUrl_amended (s : List Layer) (r : Layer)
    (h : hasServiceUrl r = false) (hnew : ∀ l ∈ s, l.name ≠ r.name) :
    handleAddLayer s r = s ++ [r] ∧
    ∀ registry : List String,
      r.name ∈ updateLayers registry (handleAddLayer s r) → r.name ∈ registry := by
  have hs : s.find? (fun l => l.name == r.name) = none := by
    rw [List.find?_eq_none]
    intro l hl
    simpa using hnew l hl
  have hadd : handleAddLayer s r = s ++ [r] := by
    unfold handleAddLayer
    rw [hs]
    simp
  refine ⟨hadd, ?_⟩
  intro registry hmem
  rw [hadd] at hmem
  unfold updateLayers at hmem
  rcases addStep_foldl_mem _ _ _ hmem with hk | ⟨l, hl, hn, hu⟩
  · exact List.mem_of_mem_filter hk
  · rcases List.mem_append.mp hl with hls | hlr
    · exact absurd hn (hnew l hls)
    · have hlr' : l = r := by simpa using hlr
      rw [hlr', h] at hu
      exact absurd hu (by simp)

/-- C2 amended witness: the amended theorem at a concrete selection, record
and registry; the endpoint-less record is appended to the selection yet
never enters the registry. -/
theorem handleAddLayer_noUrl_amended_witness :
    handleAddLayer [hospitalA] noUrlLayer = [hospitalA] ++ [noUrlLayer] ∧
    noUrlLayer.name ∉ updateLayers ["Hospital A"] (handleAddLayer [hospitalA] noUrlLayer) :=
  ⟨(handleAddLayer_noUrl_amended [hospitalA] noUrlLayer (by decide) (by decide)).1,
   fun hmem =>
    absurd ((handleAddLayer_noUrl_amended [hospitalA] noUrlLayer (by decide)
      (by decide)).2 ["Hospital A"] hmem) (by decide)⟩

/-- C3: adding three records with distinct names and endpoints yields the
selection in exactly that order, and removing the second then re-adding it
moves it to the end. -/
theorem selection_order_preserved (r1 r2 r3 : Layer)
    (hu1 : hasServiceUrl r1 = true) (hu2 : hasServiceUrl r2 = true)
    (hu3 : hasServiceUrl r3 = true)
    (h12 : r1.name ≠ r2.name) (h13 : r1.name ≠ r3.name) (h23 : r2.name ≠ r3.name) :
    handleAddLayer (handleAddLayer (handleAddLayer [] r1) r2) r3 = [r1, r2, r3] ∧
    handleAddLayer (handleRemoveLayer [r1, r2, r3] r2.name) r2 = [r1, r3, r2] := by
  have b21 : (r1.name == r2.name) = false := by simp [h12]
  have b31 : (r1.name == r3.name) = false := by simp [h13]
  have b32 : (r2.name == r3.name) = false := by simp [h23]
  have b12 : (r2.name == r1.name) = false := by simp [Ne.symm h12]
  have b13 : (r3.name == r1.name) = false := by simp [Ne.symm h13]
  have b23 : (r3.name == r2.name) = false := by simp [Ne.symm h23]
  constructor
  · simp [handleAddLayer, List.find?, b21, b31, b32]
  · simp [handleRemoveLayer, handleAddLayer, List.filter, List.find?,
      bne, b21, b12, b23, b32]

/-- C3 witness: the theorem at three concrete distinct records. -/
theorem selection_order_preserved_witness :
    handleAddLayer (handleAddLayer (handleAddLayer [] hospitalA) fireStation1)
      shelterLayer = [hospitalA, fireStation1, shelterLayer] ∧
    handleAddLayer (handleRemoveLayer [hospitalA, fireStation1, shelterLayer]
      fireStation1.name) fireStation1 = [hospitalA, shelterLayer, fireStation1] :=
  selection_order_preserved hospitalA fireStation1 shelterLayer
    (by decide) (by decide) (by decide) (by decide) (by decide) (by decide)

/-- C4: removing a name keeps a subsequence of the selection (so all other
entries stay in their relative order), keeps exactly the entries whose name
differs, and is a no-op when no entry carries the name; the operation is a
total function, so it never raises. -/
theorem handleRemoveLayer_exact (s : List Layer) (nm : String) :
    (handleRemoveLayer s nm).Sublist s ∧
    (∀ l : Layer, l ∈ handleRemoveLayer s nm ↔ (l ∈ s ∧ l.name ≠ nm)) ∧
    ((∀ l ∈ s, l.name ≠ nm) → handleRemoveLayer s nm = s) := by
  refine ⟨List.filter_sublist _, ?_, ?_⟩
  · intro l
    simp [handleRemoveLayer, List.mem_filter, bne_iff_ne]
  · intro hall
    unfold handleRemoveLayer
    rw [List.filter_eq_self]
    intro a ha
    simpa [bne_iff_ne] using hall a ha

/-- C4 witness: the theorem at a concrete selection and an absent name. -/
theorem handleRemoveLayer_exact_witness :
    handleRemoveLayer [hospitalA, fireStation1] "Not Selected" =
      [hospitalA, fireStation1] :=
  (handleRemoveLayer_exact [hospitalA, fireStation1] "Not Selected").2.2 (by decide)

/-- C5 evaluation at a failing input: the hurricane preset checks duplicates
against the stale pre-preset selection, so with an empty prior selection a
record returned by two different search terms is appended twice — the result
carries two entries with the same name — and with the record already
selected before the preset it is not re-added at all after the clear. -/
theorem hurricanePreset_stale_duplicate_check :
    handleHurricanePreset [] [[presetLayer], [presetLayer]] =
      [presetLayer, presetLayer] ∧
    ¬ ((handleHurricanePreset [] [[presetLayer], [presetLayer]]).map
        (fun l => l.name)).Nodup ∧
    handleHurricanePreset [presetLayer] [[presetLayer]] = [] := by decide

/-- C6: an empty query and a whitespace-only query normalize to the empty
token set and yield the empty result list on every catalog; the search is a
total function, so it never raises. -/
theorem search_empty_query_empty_results (catalog : List Layer) :
    searchLayers "" catalog = [] ∧ searchLayers "   " catalog = [] := by
  constructor
  · show rank (normalizeQuery "") catalog = []
    rw [show normalizeQuery "" = [] from rfl]
    rfl
  · show rank (normalizeQuery "   ") catalog = []
    rw [show normalizeQuery "   " = [] from rfl]
    rfl

/-- C7: for every query and catalog the ranked results are sorted by
`rankOrder` — descending score, ties resolved by ascending lexicographic
name — and every result has a strictly positive score. -/
theorem search_results_ranked (query : String) (catalog : List Layer) :
    List.Sorted rankOrder (searchLayers query catalog) ∧
    ∀ m ∈ searchLayers query catalog, 0 < m.score := by
  have hmain : ∀ ts : List (List Char),
      List.Sorted rankOrder (rank ts catalog) ∧
      ∀ m ∈ rank ts catalog, 0 < m.score := by
    intro ts
    unfold rank
    by_cases hts : ts.isEmpty = true
    · simp [hts]
    · rw [if_neg hts]
      refine ⟨List.sorted_insertionSort rankOrder _, ?_⟩
      intro m hm
      have hmem := (List.perm_insertionSort rankOrder _).mem_iff.mp hm
      have hpos := List.of_mem_filter hmem
      simpa using hpos
  exact hmain (normalizeQuery query)

/-- C7 witness: the theorem applied to a concrete query and catalog; the
single result has a positive score. -/
theorem search_results_ranked_witness :
    0 < (scoreRecord (normalizeQuery "hospital") hospitalA).score :=
  (search_results_ranked "hospital" [hospitalA]).2 _ (by decide)

/-- C8: the export writes one object per selected layer, in selection order,
and that object carries exactly the six fields of `ExportedLayer`, each
copied from the selection entry. -/
theorem export_projects_six_fields (layers : List Layer) :
    (exportLayers layers).length = layers.length ∧
    ∀ (i : Nat) (hi : i < (exportLayers layers).length) (hj : i < layers.length),
      ((exportLayers layers).get ⟨i, hi⟩).name = (layers.get ⟨i, hj⟩).name ∧
      ((exportLayers layers).get ⟨i, hi⟩).agency = (layers.get ⟨i, hj⟩).agency ∧
      ((exportLayers layers).get ⟨i, hi⟩).serviceUrl = (layers.get ⟨i, hj⟩).serviceUrl ∧
      ((exportLayers layers).get ⟨i, hi⟩).status = (layers.get ⟨i, hj⟩).status ∧
      ((exportLayers layers).get ⟨i, hi⟩).duaRequired = (layers.get ⟨i, hj⟩).duaRequired ∧
      ((exportLayers layers).get ⟨i, hi⟩).giiRequired = (layers.get ⟨i, hj⟩).giiRequired := by
  refine ⟨by simp [exportLayers], ?_⟩
  intro i hi hj
  simp [exportLayers, List.get_eq_getElem, List.getElem_map, exportLayer]

/-- C8 witness: the theorem applied to a concrete one-layer selection. -/
theorem export_projects_six_fields_witness :
    ((exportLayers [hospitalA]).get ⟨0, by decide⟩).name =
      (([hospitalA] : List Layer).get ⟨0, by decide⟩).name :=
  ((export_projects_six_fields [hospitalA]).2 0 (by decide) (by decide)).1

/-- C9: one map-layer registry update, run on a registry with unique keys
whose carried-over names only name selected layers with an endpoint,
produces a registry with unique keys in which every name belongs to a
selected layer that has a service URL — stale names are dropped and
endpoint-less layers are never entered. -/
theorem updateLayers_registry_invariant (registry : List String)
    (layers : List Layer) (hnd : registry.Nodup)
    (hcarry : ∀ n ∈ registry, ∀ l ∈ layers, l.name = n → hasServiceUrl l = true) :
    (updateLayers registry layers).Nodup ∧
    ∀ n ∈ updateLayers registry layers,
      ∃ l, l ∈ layers ∧ l.name = n ∧ hasServiceUrl l = true := by
  unfold updateLayers
  refine ⟨addStep_foldl_nodup _ _ (hnd.filter _), ?_⟩
  intro n hmem
  rcases addStep_foldl_mem _ _ _ hmem with hk | hex
  · have h1 : n ∈ registry := List.mem_of_mem_filter hk
    have h2 := List.of_mem_filter hk
    have h3 : n ∈ layers.map (fun l => l.name) := by simpa using h2
    rcases List.mem_map.mp h3 with ⟨l, hl, he⟩
    exact ⟨l, hl, he, hcarry n h1 l hl he⟩
  · exact hex

/-- C9 witness: the theorem at a concrete registry and selection holding a
carried-over rendered layer, an endpoint-less layer and a new layer. -/
theorem updateLayers_registry_invariant_witness :
    (updateLayers ["Hospital A"] [hospitalA, noUrlLayer, fireStation1]).Nodup :=
  (updateLayers_registry_invariant ["Hospital A"]
    [hospitalA, noUrlLayer, fireStation1] (by decide) (by decide)).1

/-- C10: when the underlying search function throws, the session search
handler stores the empty result list instead of propagating the exception,
and the selected layers are left unchanged. -/
theorem handleSearch_error_clears_results (st : SessionState) (q e : String) :
    (handleSearch st q (Except.error e)).searchResults = [] ∧
    (handleSearch st q (Except.error e)).selectedLayers = st.selectedLayers :=
  ⟨rfl, rfl⟩
